import Mathlib

/-!
Shallow embedding of the ephemeral-message scheduler in
`src/handler/tree_hole.rs` (struct `TreeHoleHandler`).

Modelling decisions, all read off the Rust source:
* `MessageId`, `ChannelId` are `Nat`; timestamps and `chrono` durations are
  `Int`; `std::time::Duration` (always non-negative) is `Nat`.
* The registry `msgs: RwLock<HashMap<MessageId, JoinHandle<()>>>` is an
  association list `List (Nat × Handle)` whose insert replaces the key, as a
  `HashMap` insert does.  A `JoinHandle` is modelled by `Handle`, carrying an
  identity and the observable `is_finished` flag.
* A spawned timer task is modelled by the list of actions its body performs
  (`tokio::time::sleep` then `Message::delete`); the Rust closures perform no
  registry mutation, and the model records exactly the actions they perform.
* Fallible store calls (`ChannelId::pins`, `messages_iter ... try_collect`)
  are `Except Unit` values supplied as parameters; event handlers become pure
  state-transition functions that also report their externally visible
  effects (spawned timers, aborted handles, delete calls, whether the
  reconciliation sweep `delete_messages` was invoked afterwards).
* `chrono::Utc::now()` is a parameter `now : Int`; the source re-reads the
  clock inside the reconciliation loop, which the model collapses to one
  instant, as no claim depends on the clock advancing mid-loop.
-/

/-- Model of a tokio `JoinHandle<()>`: an identity plus the observable
`is_finished` state at the time the registry is inspected. -/
structure Handle where
  hid : Nat
  finished : Bool
deriving DecidableEq, Repr

/-- Message snapshot as read from the store: `(id, channel_id, timestamp,
pinned)`, the fields of `serenity::Message` that `tree_hole.rs` consults. -/
structure MessageSnapshot where
  id : Nat
  channelId : Nat
  createdAt : Int
  pinned : Bool
deriving DecidableEq, Repr

/-- The pending-deletion registry `HashMap<MessageId, JoinHandle<()>>`. -/
abbrev Registry := List (Nat × Handle)

/-- Key membership, `HashMap::contains_key` / `HashSet::contains`. -/
def regContains (r : Registry) (k : Nat) : Bool :=
  r.any (fun p => p.1 == k)

/-- Lookup, `HashMap::get`. -/
def regFind (r : Registry) (k : Nat) : Option Handle :=
  (r.find? (fun p => p.1 == k)).map Prod.snd

/-- Insert, `HashMap::insert`: the new binding replaces any old binding of
the same key. -/
def regInsert (r : Registry) (k : Nat) (h : Handle) : Registry :=
  (k, h) :: r.filter (fun p => !(p.1 == k))

/-- Removal, `HashMap::remove`: returns the removed handle, if any, and the
remaining registry. -/
def regRemove (r : Registry) (k : Nat) : Option Handle × Registry :=
  match regFind r k with
  | none => (none, r)
  | some h => (some h, r.filter (fun p => !(p.1 == k)))

/-- The live path's clean-up `msgs.retain(|_, handle| !handle.is_finished())`. -/
def retainUnfinished (r : Registry) : Registry :=
  r.filter (fun p => !p.2.finished)

/-- The channel TTL directory `BOT_CONFIG.load().tree_holes`:
`(channel_id, ttl)` pairs, TTL a `std::time::Duration`. -/
abbrev Config := List (Nat × Nat)

/-- `tree_holes.get(&channel_id)`. -/
def getTtl (cfg : Config) (c : Nat) : Option Nat :=
  (cfg.find? (fun p => p.1 == c)).map Prod.snd

/-- Observable actions a spawned timer body can perform. -/
inductive TimerAction where
  | sleep (d : Nat)
  | deleteMsg (id : Nat)
  | removeEntry (id : Nat)
deriving DecidableEq, Repr

/-- Whether a timer body contains a registry-entry removal action. -/
def removesEntry (body : List TimerAction) : Bool :=
  body.any (fun a => match a with | .removeEntry _ => true | _ => false)

/-- Body of the task spawned by the `message` handler:
`tokio::time::sleep(dur).await; msg.delete(..).await` (errors only logged). -/
def liveTimerBody (dur : Nat) (msgId : Nat) : List TimerAction :=
  [TimerAction.sleep dur, TimerAction.deleteMsg msgId]

/-- `chrono::TimeDelta::to_std`, which fails exactly on negative durations. -/
def toStd (d : Int) : Option Nat :=
  if d < 0 then none else some d.toNat

/-- Body of the task spawned by reconciliation:
`tokio::time::sleep(new_dur.to_std().unwrap()).await; msg.delete(..).await`.
The `unwrap` is modelled by propagating `toStd`'s failure as `none`. -/
def reconTimerBody (newDur : Int) (msgId : Nat) : Option (List TimerAction) :=
  (toStd newDur).map (fun d => [TimerAction.sleep d, TimerAction.deleteMsg msgId])

/-- The `message` event handler (live scheduling path).  Returns the registry
after the handler and the spawned timer, if any, as `(message id, body)`.
The fresh `JoinHandle` returned by `spawn` is the parameter `h`. -/
def message (cfg : Config) (msgs : Registry) (m : MessageSnapshot) (h : Handle) :
    Registry × Option (Nat × List TimerAction) :=
  match getTtl cfg m.channelId with
  | none => (msgs, none)
  | some dur =>
    (retainUnfinished (regInsert msgs m.id h), some (m.id, liveTimerBody dur m.id))

/-- One step of the cancellation loop: `msgs.remove(&msg.id)`, and on a hit
`handle.abort()` (the aborted handles are accumulated in order). -/
def cancelStep (acc : Registry × List Handle) (m : MessageSnapshot) :
    Registry × List Handle :=
  match regRemove acc.1 m.id with
  | (some h, r) => (r, acc.2 ++ [h])
  | (none, r) => (r, acc.2)

/-- The cancellation loop of `channel_pins_update`:
`pinned_messages.into_iter().filter_map(|msg| msgs.remove(&msg.id))
  .for_each(|handle| handle.abort())`.
Returns the registry after all removals and the list of aborted handles. -/
def cancelPinned (msgs : Registry) (pinned : List MessageSnapshot) :
    Registry × List Handle :=
  pinned.foldl cancelStep (msgs, [])

/-- The `channel_pins_update` event handler.  `fetchPins` is the result of
`event.channel_id.pins(..)`.  Returns the registry, the aborted handles, and
whether `self.delete_messages(ctx)` (the reconciliation sweep) was invoked
after the cancellation attempt. -/
def channel_pins_update (cfg : Config) (msgs : Registry) (channelId : Nat)
    (lastPinTimestamp : Option Int) (fetchPins : Except Unit (List MessageSnapshot)) :
    Registry × List Handle × Bool :=
  if (getTtl cfg channelId).isNone then (msgs, [], false)
  else
    match lastPinTimestamp with
    | none => (msgs, [], false)
    | some _ =>
      match fetchPins with
      | .error _ => (msgs, [], false)
      | .ok pinned =>
        let res := cancelPinned msgs pinned
        (res.1, res.2, true)

/-- Result of one channel's reconciliation sweep body: the registry after
the loop, the spawned timers as `(message id, new_dur)`, and the expired
batch `old` in push order. -/
structure SweepResult where
  registry : Registry
  scheduled : List (Nat × Int)
  old : List Nat
deriving DecidableEq, Repr

/-- The remaining duration computed for one candidate message:
`new_dur = delta - (now - msg.timestamp)` with `delta` the channel TTL. -/
def remainingDur (dur : Nat) (now : Int) (m : MessageSnapshot) : Int :=
  (dur : Int) - (now - m.createdAt)

/-- Loop step of `delete_in_channel` for one candidate message: if `new_dur`
is positive, spawn a timer and insert its handle, else push the id onto the
expired batch `old`. -/
def sweepStep (dur : Nat) (now : Int) (fresh : Nat → Handle)
    (acc : SweepResult) (m : MessageSnapshot) : SweepResult :=
  if 0 < remainingDur dur now m then
    { acc with
      registry := regInsert acc.registry m.id (fresh m.id)
      scheduled := acc.scheduled ++ [(m.id, remainingDur dur now m)] }
  else
    { acc with old := acc.old ++ [m.id] }

/-- Body of `delete_in_channel` after the history fetch succeeded: snapshot
the registry's key set, filter the history to messages neither tracked nor
pinned, and run the scheduling loop.  `fresh` supplies the `JoinHandle` that
`spawn` returns for a given message id. -/
def sweepChannel (msgs : Registry) (history : List MessageSnapshot)
    (dur : Nat) (now : Int) (fresh : Nat → Handle) : SweepResult :=
  let keys := msgs.map Prod.fst
  (history.filter (fun m => !keys.contains m.id && !m.pinned)).foldl
    (sweepStep dur now fresh) ⟨msgs, [], []⟩

/-- One delete call issued by the batch executor: `Http::delete_message` for
a chunk of exactly one id, `Http::delete_messages` otherwise. -/
inductive DeleteCall where
  | single (id : Nat)
  | batch (ids : List Nat)
deriving DecidableEq, Repr

/-- Whether a delete call is the single-message form. -/
def DeleteCall.isSingle : DeleteCall → Bool
  | .single _ => true
  | .batch _ => false

/-- `old.chunks(100)`: successive sub-lists of at most 100 elements, the
last possibly shorter, none empty. -/
def chunks100 (l : List Nat) : List (List Nat) :=
  if l.isEmpty then [] else l.take 100 :: chunks100 (l.drop 100)
termination_by l.length
decreasing_by
  simp only [List.isEmpty_iff] at *
  simp only [List.length_drop]
  cases l with
  | nil => simp_all
  | cons a t => simp; omega

/-- The delete call issued for one chunk: the `if let [m] = chunk` branch
uses `delete_message`, every other chunk goes to `delete_messages`. -/
def chunkCall (c : List Nat) : DeleteCall :=
  match c with
  | [m] => DeleteCall.single m
  | _ => DeleteCall.batch c

/-- The batch-deletion loop at the end of `delete_in_channel`: one delete
call per chunk of 100, in order; each call's failure is only logged. -/
def executeBatch (old : List Nat) : List DeleteCall :=
  (chunks100 old).map chunkCall

/-- The whole of `delete_in_channel`: `messages_iter(..).try_collect` may
fail (the `?` propagates a `FetchError` to the caller); on success the sweep
body runs and the expired batch is handed to the executor. -/
def delete_in_channel (msgs : Registry)
    (fetchHistory : Except Unit (List MessageSnapshot)) (dur : Nat) (now : Int)
    (fresh : Nat → Handle) : Except Unit (SweepResult × List DeleteCall) :=
  match fetchHistory with
  | .error e => .error e
  | .ok history =>
    let s := sweepChannel msgs history dur now fresh
    .ok (s, executeBatch s.old)

/-- Loop step of `delete_messages` for one configured channel: run
`delete_in_channel`; on `Err` log and continue with the registry unchanged.
The outcome list records `(channel_id, sweep completed?)`. -/
def chanStep (fetch : Nat → Except Unit (List MessageSnapshot)) (now : Int)
    (fresh : Nat → Handle) (acc : Registry × List (Nat × Bool))
    (entry : Nat × Nat) : Registry × List (Nat × Bool) :=
  match delete_in_channel acc.1 (fetch entry.1) entry.2 now fresh with
  | .error _ => (acc.1, acc.2 ++ [(entry.1, false)])
  | .ok (s, _) => (s.registry, acc.2 ++ [(entry.1, true)])

/-- The reconciliation entry point `delete_messages`: iterate over every
configured channel, never propagating any channel's error (its return type
carries no error). -/
def delete_messages (cfg : Config)
    (fetch : Nat → Except Unit (List MessageSnapshot)) (msgs : Registry)
    (now : Int) (fresh : Nat → Handle) : Registry × List (Nat × Bool) :=
  cfg.foldl (chanStep fetch now fresh) (msgs, [])

example :
    (sweepChannel [] [⟨2, 7, 30, false⟩] 60 100 (fun i => ⟨i, false⟩)).old
      = [2] := by decide

example :
    (sweepChannel [] [⟨2, 7, 30, false⟩] 60 40 (fun i => ⟨i, false⟩)).scheduled
      = [(2, 50)] := by decide

example : executeBatch [3] = [DeleteCall.single 3] := by
  simp [executeBatch, chunks100, chunkCall]

example :
    (channel_pins_update [(7, 60)] [(5, ⟨1, false⟩)] 7 (some 0)
      (Except.ok [⟨5, 7, 0, true⟩])).1 = [] := by decide

example :
    (channel_pins_update [(7, 60)] [(5, ⟨1, false⟩)] 7 none
      (Except.ok [⟨5, 7, 0, true⟩])).2.2 = false := by decide

example :
    (message [(7, 60)] [] ⟨5, 7, 0, false⟩ ⟨1, false⟩).1 = [(5, ⟨1, false⟩)] := by decide

/-- Two registry entries with the same key coincide when the key list has no
duplicates (the `HashMap` shape invariant). -/
theorem key_unique {msgs : Registry} (hnd : (msgs.map Prod.fst).Nodup)
    {p q : Nat × Handle} (hp : p ∈ msgs) (hq : q ∈ msgs) (h : p.1 = q.1) : p = q := by
  induction msgs with
  | nil => simp at hp
  | cons r t ih =>
    simp only [List.map_cons, List.nodup_cons] at hnd
    rcases List.mem_cons.mp hp with hp1 | hp1 <;> rcases List.mem_cons.mp hq with hq1 | hq1
    · rw [hp1, hq1]
    · exact absurd (List.mem_map.mpr ⟨q, hq1, by rw [← h, hp1]⟩) hnd.1
    · exact absurd (List.mem_map.mpr ⟨p, hp1, by rw [h, hq1]⟩) hnd.1
    · exact ih hnd.2 hp1 hq1

/-- Lookup of a present key returns that entry's handle (keys nodup). -/
theorem regFind_mem {msgs : Registry} (hnd : (msgs.map Prod.fst).Nodup)
    {p : Nat × Handle} (hp : p ∈ msgs) : regFind msgs p.1 = some p.2 := by
  unfold regFind
  cases hf : msgs.find? (fun q => q.1 == p.1) with
  | none =>
    exfalso
    have := List.find?_eq_none.mp hf p hp
    simp at this
  | some q =>
    have hqm : q ∈ msgs := List.mem_of_find?_eq_some hf
    have hqp := List.find?_some hf
    have : q = p := key_unique hnd hqm hp (by simpa using hqp)
    simp [this]

/-- The registry left by `regRemove` is a key filter, in the hit and the
miss case alike. -/
theorem regRemove_snd (r : Registry) (k : Nat) :
    (regRemove r k).2 = r.filter (fun p => !(p.1 == k)) := by
  unfold regRemove
  cases hf : regFind r k with
  | none =>
    simp only
    symm
    rw [List.filter_eq_self]
    intro p hp
    unfold regFind at hf
    rcases ho : r.find? (fun q => q.1 == k) with _ | q
    · have := List.find?_eq_none.mp ho p hp
      simpa using this
    · simp [ho] at hf
  | some h => simp

/-- Registry component of one cancellation step. -/
theorem cancelStep_fst (st : Registry × List Handle) (m : MessageSnapshot) :
    (cancelStep st m).1 = st.1.filter (fun p => !(p.1 == m.id)) := by
  rw [← regRemove_snd st.1 m.id]
  unfold cancelStep
  rcases hr : regRemove st.1 m.id with ⟨_ | h, r⟩ <;> simp [hr]

/-- The cancellation loop leaves exactly the entries whose key matches no
pinned message. -/
theorem cancelPinned_registry (pinned : List MessageSnapshot) :
    ∀ (st : Registry × List Handle),
      (pinned.foldl cancelStep st).1 =
        st.1.filter (fun p => !(pinned.any (fun m => m.id == p.1))) := by
  induction pinned with
  | nil => intro st; simp
  | cons m rest ih =>
    intro st
    rw [List.foldl_cons, ih, cancelStep_fst, List.filter_filter]
    refine List.filter_congr ?_
    intro p _
    by_cases h : p.1 = m.id
    · simp [h, List.any_cons]
    · have e1 : (p.1 == m.id) = false := by simpa using h
      have e2 : (m.id == p.1) = false := by simpa using fun hh => h hh.symm
      simp [e1, e2, List.any_cons, Bool.and_comm]

/-- Handles already collected for abort stay collected. -/
theorem cancel_aborted_mono (pinned : List MessageSnapshot) :
    ∀ (st : Registry × List Handle) (x : Handle), x ∈ st.2 →
      x ∈ (pinned.foldl cancelStep st).2 := by
  induction pinned with
  | nil => intro st x hx; simpa using hx
  | cons m rest ih =>
    intro st x hx
    rw [List.foldl_cons]
    refine ih _ x ?_
    unfold cancelStep
    rcases hr : regRemove st.1 m.id with ⟨_ | h, r⟩ <;> simp [hx]

/-- Filtering a registry keeps its key list duplicate-free. -/
theorem nodup_filter_fst {msgs : Registry} (hnd : (msgs.map Prod.fst).Nodup)
    (q : Nat × Handle → Bool) : ((msgs.filter q).map Prod.fst).Nodup :=
  List.Nodup.sublist (List.Sublist.map Prod.fst (List.filter_sublist msgs)) hnd

/-- Every registry entry keyed by a pinned message has its handle collected
for abort by the cancellation loop. -/
theorem cancel_aborted_mem (pinned : List MessageSnapshot) :
    ∀ (msgs : Registry) (acc : List Handle) (p : Nat × Handle),
      (msgs.map Prod.fst).Nodup → p ∈ msgs → (∃ m ∈ pinned, m.id = p.1) →
      p.2 ∈ (pinned.foldl cancelStep (msgs, acc)).2 := by
  induction pinned with
  | nil => intro msgs acc p _ _ hm; simp at hm
  | cons m rest ih =>
    intro msgs acc p hnd hp hm
    rw [List.foldl_cons]
    by_cases he : m.id = p.1
    · have hf : regFind msgs m.id = some p.2 := he ▸ regFind_mem hnd hp
      have hstep : cancelStep (msgs, acc) m =
          (msgs.filter (fun q => !(q.1 == m.id)), acc ++ [p.2]) := by
        unfold cancelStep regRemove
        simp [hf]
      rw [hstep]
      exact cancel_aborted_mono rest _ p.2 (by simp)
    · have hstep1 : (cancelStep (msgs, acc) m).1 =
          msgs.filter (fun q => !(q.1 == m.id)) := cancelStep_fst (msgs, acc) m
      rcases hm with ⟨mm, hmm, hmp⟩
      rcases List.mem_cons.mp hmm with h1 | h1
      · exact absurd (h1 ▸ hmp) he
      · rcases hs : cancelStep (msgs, acc) m with ⟨r1, a1⟩
        have hr1 : r1 = msgs.filter (fun q => !(q.1 == m.id)) := by
          rw [← hstep1, hs]
        refine ih r1 a1 p ?_ ?_ ⟨mm, h1, hmp⟩
        · rw [hr1]; exact nodup_filter_fst hnd _
        · rw [hr1]
          refine List.mem_filter.mpr ⟨hp, ?_⟩
          simpa using fun hh => he hh.symm

/-- Scheduled-timer component of the sweep loop: one timer per candidate
with positive remaining duration, carrying that duration. -/
theorem foldl_sweep_scheduled (d : Nat) (n : Int) (f : Nat → Handle) :
    ∀ (l : List MessageSnapshot) (acc : SweepResult),
      (l.foldl (sweepStep d n f) acc).scheduled =
        acc.scheduled ++ (l.filter (fun m => decide (0 < remainingDur d n m))).map
          (fun m => (m.id, remainingDur d n m))
  | [], acc => by simp
  | m :: t, acc => by
    rw [List.foldl_cons, foldl_sweep_scheduled d n f t]
    by_cases h : 0 < remainingDur d n m
    · simp [sweepStep, h]
    · simp [sweepStep, h]

/-- Expired-batch component of the sweep loop: the candidates whose
remaining duration is not positive, in history order. -/
theorem foldl_sweep_old (d : Nat) (n : Int) (f : Nat → Handle) :
    ∀ (l : List MessageSnapshot) (acc : SweepResult),
      (l.foldl (sweepStep d n f) acc).old =
        acc.old ++ (l.filter (fun m => decide (remainingDur d n m ≤ 0))).map
          (fun m => m.id)
  | [], acc => by simp
  | m :: t, acc => by
    rw [List.foldl_cons, foldl_sweep_old d n f t]
    by_cases h : 0 < remainingDur d n m
    · have h2 : ¬ remainingDur d n m ≤ 0 := by omega
      simp [sweepStep, h, h2]
    · have h2 : remainingDur d n m ≤ 0 := by omega
      simp [sweepStep, h, h2]

/-- Registry entries whose key differs from every processed candidate's id
survive the sweep loop untouched. -/
theorem foldl_sweep_preserves (d : Nat) (n : Int) (f : Nat → Handle) :
    ∀ (l : List MessageSnapshot) (acc : SweepResult) (p : Nat × Handle),
      p ∈ acc.registry → (∀ m ∈ l, m.id ≠ p.1) →
      p ∈ (l.foldl (sweepStep d n f) acc).registry
  | [], acc, p => by simp
  | m :: t, acc, p => by
    intro hp hl
    rw [List.foldl_cons]
    refine foldl_sweep_preserves d n f t _ p ?_ (fun mm hm => hl mm (by simp [hm]))
    have hne : m.id ≠ p.1 := hl m (by simp)
    by_cases h : 0 < remainingDur d n m
    · simp only [sweepStep, if_pos h, regInsert]
      refine List.mem_cons_of_mem _ (List.mem_filter.mpr ⟨hp, ?_⟩)
      simp [Ne.symm hne]
    · simpa [sweepStep, if_neg h] using hp

/-- Every entry of the sweep loop's final registry is an initial entry or a
freshly spawned handle keyed by a processed candidate's id. -/
theorem foldl_sweep_new (d : Nat) (n : Int) (f : Nat → Handle) :
    ∀ (l : List MessageSnapshot) (acc : SweepResult) (p : Nat × Handle),
      p ∈ (l.foldl (sweepStep d n f) acc).registry →
      p ∈ acc.registry ∨ ∃ m, m ∈ l ∧ p.1 = m.id ∧ p.2 = f m.id
  | [], acc, p => by simp
  | m :: t, acc, p => by
    intro hp
    rw [List.foldl_cons] at hp
    rcases foldl_sweep_new d n f t _ p hp with h1 | ⟨mm, hm, he⟩
    · by_cases h : 0 < remainingDur d n m
      · simp only [sweepStep, if_pos h, regInsert] at h1
        rcases List.mem_cons.mp h1 with he | hf
        · right; exact ⟨m, by simp, by simp [he], by simp [he]⟩
        · exact Or.inl (List.mem_filter.mp hf).1
      · simp only [sweepStep, if_neg h] at h1
        exact Or.inl h1
    · right; exact ⟨mm, by simp [hm], he⟩

/-- Every entry present when a channel sweep starts is still present, with
the same handle, when it completes. -/
theorem sweepChannel_preserves (msgs : Registry) (history : List MessageSnapshot)
    (dur : Nat) (now : Int) (fresh : Nat → Handle) :
    ∀ p ∈ msgs, p ∈ (sweepChannel msgs history dur now fresh).registry := by
  intro p hp
  unfold sweepChannel
  refine foldl_sweep_preserves dur now fresh _ _ p hp ?_
  intro m hm he
  have hpred := (List.mem_filter.mp hm).2
  simp only [Bool.and_eq_true, Bool.not_eq_true'] at hpred
  have hmem : p.1 ∈ msgs.map Prod.fst := List.mem_map.mpr ⟨p, hp, rfl⟩
  rw [← he] at hmem
  have hc : (msgs.map Prod.fst).contains m.id = true := List.elem_iff.mpr hmem
  rw [hpred.1] at hc
  exact Bool.false_ne_true hc

/-- The number of chunks `slice::chunks(100)` yields is `⌈N / 100⌉`. -/
theorem chunks100_length (l : List Nat) :
    (chunks100 l).length = (l.length + 99) / 100 := by
  induction l using chunks100.induct with
  | case1 l h => simp_all [chunks100, List.isEmpty_iff]
  | case2 l h ih =>
    rw [chunks100]
    simp only [List.isEmpty_iff] at h
    simp [h, ih, List.length_drop]
    have : 0 < l.length := List.length_pos.mpr h
    omega

/-- Every chunk `slice::chunks(100)` yields has between 1 and 100 elements. -/
theorem chunks100_mem_length (l : List Nat) (c : List Nat) (hc : c ∈ chunks100 l) :
    1 ≤ c.length ∧ c.length ≤ 100 := by
  induction l using chunks100.induct with
  | case1 l h => rw [chunks100] at hc; simp [h] at hc
  | case2 l h ih =>
    rw [chunks100] at hc
    simp only [h, if_false, Bool.false_eq_true] at hc
    rcases List.mem_cons.mp hc with he | hm
    · subst he
      simp only [List.isEmpty_iff] at h
      have : 0 < l.length := List.length_pos.mpr h
      simp only [List.length_take]
      omega
    · exact ih hm

/-- Empty input yields no chunks. -/
theorem chunks100_nil : chunks100 [] = [] := by
  rw [chunks100]; simp

/-- A short non-empty batch forms a single chunk. -/
theorem chunks100_singleton (l : List Nat) (h1 : l ≠ []) (h2 : l.length ≤ 100) :
    chunks100 l = [l] := by
  rw [chunks100]
  simp [List.isEmpty_iff, h1, List.take_of_length_le h2,
    List.drop_eq_nil_of_le h2, chunks100_nil]

/-- The remaining duration equals `(created_at + ttl) - now`. -/
theorem remainingDur_eq (d : Nat) (n : Int) (m : MessageSnapshot) :
    remainingDur d n m = m.createdAt + (d : Int) - n := by
  unfold remainingDur; ring

/-- C1: the claim says a full reconciliation sweep follows every pin-change
event on a configured channel even when the event carries no last-pin
timestamp or the pinned fetch fails; the code returns early in both cases,
invoking no sweep. -/
theorem C1_counterexample :
    (channel_pins_update [(7, 60)] [] 7 none (Except.ok [])).2.2 = false ∧
    (channel_pins_update [(7, 60)] [] 7 (some 0) (Except.error ())).2.2 = false := by
  decide

/-- C1 (amended): after a pin-change event the reconciliation sweep is
invoked exactly when the channel is configured, the event carries a last-pin
timestamp, and the pinned-message fetch succeeds; otherwise the handler
returns without sweeping. -/
theorem C1_sweep_condition (cfg : Config) (msgs : Registry) (chan : Nat)
    (ts : Option Int) (fetchPins : Except Unit (List MessageSnapshot)) :
    (channel_pins_update cfg msgs chan ts fetchPins).2.2 = true ↔
      ((getTtl cfg chan).isSome = true ∧ ts.isSome = true ∧
        fetchPins.isOk = true) := by
  unfold channel_pins_update
  rcases h : getTtl cfg chan with _ | dur <;>
    rcases ts with _ | t <;>
    rcases fetchPins with e | pinned <;>
      simp [h, Except.isOk, Except.toBool]

/-- C2: the claim says a fired timer removes its own Registry entry; the
timer bodies spawned by the live path and by reconciliation perform only a
sleep and a message deletion, no registry removal. -/
theorem C2_counterexample :
    removesEntry (liveTimerBody 60 42) = false ∧
    (reconTimerBody 50 42).map removesEntry = some false := by
  decide

/-- C2 (amended): when a scheduled timer reaches its fire time it invokes
deletion of its message and nothing else; it does not remove its own
Registry entry.  The entry of a fired timer is removed later, by the
retain-based pruning that follows a live-path insertion (which removes
exactly the entries whose timers have finished) or by the canceller. -/
theorem C2_timer_fires_deletes_only (dur : Nat) (msgId : Nat) (d : Int)
    (hd : 0 ≤ d) (r : Registry) (p : Nat × Handle) :
    liveTimerBody dur msgId = [TimerAction.sleep dur, TimerAction.deleteMsg msgId] ∧
    removesEntry (liveTimerBody dur msgId) = false ∧
    reconTimerBody d msgId =
      some [TimerAction.sleep d.toNat, TimerAction.deleteMsg msgId] ∧
    (p ∈ retainUnfinished r ↔ p ∈ r ∧ p.2.finished = false) := by
  have hnn : ¬ d < 0 := by omega
  refine ⟨rfl, by simp [removesEntry, liveTimerBody], ?_, ?_⟩
  · simp [reconTimerBody, toStd, hnn]
  · simp [retainUnfinished, List.mem_filter, Bool.not_eq_true']

/-- Witness for the amended C2 at concrete inputs. -/
theorem C2_timer_fires_deletes_only_witness :
    liveTimerBody 60 42 = [TimerAction.sleep 60, TimerAction.deleteMsg 42] ∧
    removesEntry (liveTimerBody 60 42) = false ∧
    reconTimerBody 50 42 =
      some [TimerAction.sleep (50 : Int).toNat, TimerAction.deleteMsg 42] ∧
    ((7, ⟨1, false⟩) ∈ retainUnfinished [(7, ⟨1, false⟩)] ↔
      (7, ⟨1, false⟩) ∈ ([(7, ⟨1, false⟩)] : Registry) ∧
        (Handle.mk 1 false).finished = false) :=
  C2_timer_fires_deletes_only 60 42 50 (by decide) [(7, ⟨1, false⟩)] (7, ⟨1, false⟩)

/-- C3: a channel sweep processes exactly the history messages neither in
the registry snapshot nor pinned; a candidate with
`(created_at + ttl) - now > 0` gets a timer for that remaining duration, and
a candidate with remaining duration `≤ 0` (zero included) goes to the
channel's expired batch. -/
theorem C3_sweep_candidates_partition (msgs : Registry)
    (history : List MessageSnapshot) (dur : Nat) (now : Int)
    (fresh : Nat → Handle) :
    (sweepChannel msgs history dur now fresh).scheduled =
      ((history.filter (fun m =>
          !(msgs.map Prod.fst).contains m.id && !m.pinned)).filter
        (fun m => decide (0 < m.createdAt + (dur : Int) - now))).map
        (fun m => (m.id, m.createdAt + (dur : Int) - now)) ∧
    (sweepChannel msgs history dur now fresh).old =
      ((history.filter (fun m =>
          !(msgs.map Prod.fst).contains m.id && !m.pinned)).filter
        (fun m => decide (m.createdAt + (dur : Int) - now ≤ 0))).map
        (fun m => m.id) := by
  unfold sweepChannel
  constructor
  · rw [foldl_sweep_scheduled]
    simp only [remainingDur_eq, List.nil_append]
  · rw [foldl_sweep_old]
    simp only [remainingDur_eq, List.nil_append]

/-- C4: for an expired batch of `N` ids the executor issues `⌈N / 100⌉`
delete calls; every chunk has between 1 and 100 ids; the single-message
delete call is used exactly for chunks of size 1, so every batch-delete
call carries between 2 and 100 ids. -/
theorem C4_chunking (old c : List Nat) (hc : c ∈ chunks100 old) :
    (executeBatch old).length = (old.length + 99) / 100 ∧
    1 ≤ c.length ∧ c.length ≤ 100 ∧
    ((chunkCall c).isSingle = true ↔ c.length = 1) ∧
    (∀ ids, chunkCall c = DeleteCall.batch ids →
      2 ≤ ids.length ∧ ids.length ≤ 100) := by
  have hlen := chunks100_mem_length old c hc
  refine ⟨?_, hlen.1, hlen.2, ?_, ?_⟩
  · unfold executeBatch
    rw [List.length_map, chunks100_length]
  · rcases c with _ | ⟨a, _ | ⟨b, t⟩⟩ <;> simp [chunkCall, DeleteCall.isSingle]
  · intro ids hid
    rcases c with _ | ⟨a, _ | ⟨b, t⟩⟩
    · exact absurd hlen.1 (by simp)
    · simp [chunkCall] at hid
    · simp only [chunkCall] at hid
      cases hid
      refine ⟨by simp, ?_⟩
      simpa using hlen.2

/-- Witness for C4 on a concrete three-element batch. -/
theorem C4_chunking_witness :
    (executeBatch [1, 2, 3]).length = (([1, 2, 3] : List Nat).length + 99) / 100 ∧
    1 ≤ ([1, 2, 3] : List Nat).length ∧ ([1, 2, 3] : List Nat).length ≤ 100 ∧
    ((chunkCall [1, 2, 3]).isSingle = true ↔ ([1, 2, 3] : List Nat).length = 1) ∧
    (∀ ids, chunkCall [1, 2, 3] = DeleteCall.batch ids →
      2 ≤ ids.length ∧ ids.length ≤ 100) :=
  C4_chunking [1, 2, 3] [1, 2, 3]
    (by rw [chunks100_singleton [1, 2, 3] (by decide) (by decide)]
        exact List.mem_singleton.mpr rfl)

/-- C5: the claim says completed entries are pruned after every insertion on
both paths; the reconciliation path inserts without pruning.  At this input
the sweep inserts an entry for message 2, yet the already-finished entry for
message 1 is still in the registry afterwards. -/
theorem C5_counterexample :
    (2, ⟨2, false⟩) ∈ (sweepChannel [(1, ⟨0, true⟩)] [⟨2, 7, 100, false⟩] 60 100
      (fun i => ⟨i, false⟩)).registry ∧
    (1, ⟨0, true⟩) ∈ (sweepChannel [(1, ⟨0, true⟩)] [⟨2, 7, 100, false⟩] 60 100
      (fun i => ⟨i, false⟩)).registry := by
  decide

/-- C5 (amended): completed entries are pruned after an insertion on the
live scheduling path only — after the `message` handler runs on a configured
channel no entry with a finished timer remains — while reconciliation-path
insertions are not followed by pruning: every entry present before the sweep
is still present after it, finished or not. -/
theorem C5_prune_only_on_live_path (cfg : Config) (msgs : Registry)
    (m : MessageSnapshot) (h : Handle)
    (hcfg : (getTtl cfg m.channelId).isSome = true) (msgs2 : Registry)
    (history : List MessageSnapshot) (dur2 : Nat) (now : Int)
    (fresh : Nat → Handle) :
    (∀ p ∈ (message cfg msgs m h).1, p.2.finished = false) ∧
    (∀ q ∈ msgs2, q ∈ (sweepChannel msgs2 history dur2 now fresh).registry) := by
  constructor
  · intro p hp
    rcases hg : getTtl cfg m.channelId with _ | dur
    · rw [hg] at hcfg; simp at hcfg
    · simp only [message, hg, retainUnfinished] at hp
      have := (List.mem_filter.mp hp).2
      simpa [Bool.not_eq_true'] using this
  · exact sweepChannel_preserves msgs2 history dur2 now fresh

/-- Witness for the amended C5 at concrete inputs. -/
theorem C5_prune_only_on_live_path_witness :
    (∀ p ∈ (message [(7, 60)] [] ⟨5, 7, 0, false⟩ ⟨1, false⟩).1,
      p.2.finished = false) ∧
    (∀ q ∈ ([(9, ⟨2, true⟩)] : Registry),
      q ∈ (sweepChannel [(9, ⟨2, true⟩)] [] 60 0 (fun i => ⟨i, false⟩)).registry) :=
  C5_prune_only_on_live_path [(7, 60)] [] ⟨5, 7, 0, false⟩ ⟨1, false⟩ (by decide)
    [(9, ⟨2, true⟩)] [] 60 0 (fun i => ⟨i, false⟩)

/-- C6: a message-created event on a channel without a TTL entry leaves the
registry unchanged and spawns nothing; on a configured channel a timer
sleeping the channel TTL (so firing at `now + ttl`) and then deleting the
message is spawned and its cancellable handle is stored under the message's
id. -/
theorem C6_live_event (cfg : Config) (msgs : Registry) (m : MessageSnapshot)
    (h : Handle) :
    (getTtl cfg m.channelId = none → message cfg msgs m h = (msgs, none)) ∧
    (∀ dur, getTtl cfg m.channelId = some dur →
      (message cfg msgs m h).2 =
        some (m.id, [TimerAction.sleep dur, TimerAction.deleteMsg m.id]) ∧
      (h.finished = false → (m.id, h) ∈ (message cfg msgs m h).1)) := by
  constructor
  · intro hg; simp [message, hg]
  · intro dur hg
    constructor
    · simp [message, hg, liveTimerBody]
    · intro hf
      simp only [message, hg, retainUnfinished, regInsert]
      exact List.mem_filter.mpr ⟨List.mem_cons_self _ _, by simp [hf]⟩

/-- Witness for C6: channel 8 is unconfigured and ignored; channel 7 has
TTL 60 and the spawned timer is stored. -/
theorem C6_live_event_witness :
    message [(7, 60)] [] ⟨5, 8, 0, false⟩ ⟨1, false⟩ = ([], none) ∧
    (message [(7, 60)] [] ⟨5, 7, 0, false⟩ ⟨1, false⟩).2 =
      some (5, [TimerAction.sleep 60, TimerAction.deleteMsg 5]) ∧
    (5, ⟨1, false⟩) ∈ (message [(7, 60)] [] ⟨5, 7, 0, false⟩ ⟨1, false⟩).1 := by
  refine ⟨(C6_live_event [(7, 60)] [] ⟨5, 8, 0, false⟩ ⟨1, false⟩).1 (by decide),
    ?_, ?_⟩
  · exact ((C6_live_event [(7, 60)] [] ⟨5, 7, 0, false⟩ ⟨1, false⟩).2 60
      (by decide)).1
  · exact ((C6_live_event [(7, 60)] [] ⟨5, 7, 0, false⟩ ⟨1, false⟩).2 60
      (by decide)).2 (by decide)

/-- C7: after a successful cancellation step (timestamp present, pinned
fetch succeeded) no fetched pinned message has a registry entry, and every
removed entry's handle was aborted. -/
theorem C7_pin_exclusion (cfg : Config) (msgs : Registry) (chan : Nat)
    (t : Int) (pinned : List MessageSnapshot)
    (hcfg : (getTtl cfg chan).isSome = true)
    (hnd : (msgs.map Prod.fst).Nodup) :
    (∀ m ∈ pinned,
      regContains
        (channel_pins_update cfg msgs chan (some t) (Except.ok pinned)).1 m.id
        = false) ∧
    (∀ p ∈ msgs, (∃ m ∈ pinned, m.id = p.1) →
      p.2 ∈ (channel_pins_update cfg msgs chan (some t) (Except.ok pinned)).2.1) := by
  have hni : (getTtl cfg chan).isNone = false := by
    cases hg : getTtl cfg chan with
    | none => rw [hg] at hcfg; simp at hcfg
    | some d => simp
  have hcp : channel_pins_update cfg msgs chan (some t) (Except.ok pinned) =
      ((cancelPinned msgs pinned).1, (cancelPinned msgs pinned).2, true) := by
    unfold channel_pins_update
    rw [hni]
    simp
  rw [hcp]
  constructor
  · intro m hm
    have h3 : (cancelPinned msgs pinned).1 =
        msgs.filter (fun p => !(pinned.any (fun mm => mm.id == p.1))) :=
      cancelPinned_registry pinned (msgs, [])
    simp only
    rw [h3]
    unfold regContains
    rw [List.any_eq_false]
    intro p hp hbeq
    have h1 := (List.mem_filter.mp hp).2
    simp only [Bool.not_eq_true'] at h1
    rw [List.any_eq_false] at h1
    have heq : p.1 = m.id := by simpa using hbeq
    exact h1 m hm (by simp [heq])
  · intro p hp hex
    exact cancel_aborted_mem pinned msgs [] p hnd hp hex

/-- Witness for C7: pinned message 5 is cancelled out of the registry and
its handle aborted. -/
theorem C7_pin_exclusion_witness :
    (∀ m ∈ ([⟨5, 7, 0, true⟩] : List MessageSnapshot),
      regContains (channel_pins_update [(7, 60)] [(5, ⟨1, false⟩)] 7 (some 0)
        (Except.ok [⟨5, 7, 0, true⟩])).1 m.id = false) ∧
    (∀ p ∈ ([(5, ⟨1, false⟩)] : Registry),
      (∃ m ∈ ([⟨5, 7, 0, true⟩] : List MessageSnapshot), m.id = p.1) →
      p.2 ∈ (channel_pins_update [(7, 60)] [(5, ⟨1, false⟩)] 7 (some 0)
        (Except.ok [⟨5, 7, 0, true⟩])).2.1) :=
  C7_pin_exclusion [(7, 60)] [(5, ⟨1, false⟩)] 7 0 [⟨5, 7, 0, true⟩]
    (by decide) (by decide)

/-- Outcome list of one channel step: the channel is recorded exactly once,
with its success flag. -/
theorem chanStep_snd (fetch : Nat → Except Unit (List MessageSnapshot))
    (now : Int) (fresh : Nat → Handle) (st : Registry × List (Nat × Bool))
    (e : Nat × Nat) :
    ∃ b, (chanStep fetch now fresh st e).2 = st.2 ++ [(e.1, b)] := by
  unfold chanStep
  rcases hf : delete_in_channel st.1 (fetch e.1) e.2 now fresh with er | ⟨s, calls⟩
  · exact ⟨false, by simp [hf]⟩
  · exact ⟨true, by simp [hf]⟩

/-- The reconciliation entry point visits every configured channel in
order, whatever each channel's outcome. -/
theorem delete_messages_channels (cfg : Config)
    (fetch : Nat → Except Unit (List MessageSnapshot)) (now : Int)
    (fresh : Nat → Handle) :
    ∀ st : Registry × List (Nat × Bool),
      ((cfg.foldl (chanStep fetch now fresh) st).2).map Prod.fst =
        st.2.map Prod.fst ++ cfg.map Prod.fst := by
  induction cfg with
  | nil => intro st; simp
  | cons e rest ih =>
    intro st
    rw [List.foldl_cons, ih]
    rcases chanStep_snd fetch now fresh st e with ⟨b, hb⟩
    rw [hb]
    simp

/-- C8: the reconciliation entry point attempts every configured channel —
its outcome list covers exactly the configured channels in order and its
return type carries no error — and a channel whose history fetch fails is
skipped with the registry unchanged, affecting no other channel. -/
theorem C8_channel_isolation (cfg : Config)
    (fetch : Nat → Except Unit (List MessageSnapshot)) (msgs : Registry)
    (now : Int) (fresh : Nat → Handle) (r : Registry) (acc : List (Nat × Bool))
    (c dur : Nat) (hfail : fetch c = Except.error ()) :
    ((delete_messages cfg fetch msgs now fresh).2).map Prod.fst =
      cfg.map Prod.fst ∧
    chanStep fetch now fresh (r, acc) (c, dur) = (r, acc ++ [(c, false)]) := by
  constructor
  · have := delete_messages_channels cfg fetch now fresh (msgs, [])
    simpa [delete_messages] using this
  · simp [chanStep, delete_in_channel, hfail]

/-- Witness for C8: channel 7's fetch fails, channel 8's succeeds; both
appear in the outcome list and the failing step leaves the registry alone. -/
theorem C8_channel_isolation_witness :
    ((delete_messages [(7, 60), (8, 60)]
        (fun c => if c == 7 then Except.error () else Except.ok []) [] 0
        (fun i => ⟨i, false⟩)).2).map Prod.fst =
      ([(7, 60), (8, 60)] : Config).map Prod.fst ∧
    chanStep (fun c => if c == 7 then Except.error () else Except.ok []) 0
      (fun i => ⟨i, false⟩) ([], []) (7, 60) = ([], [] ++ [(7, false)]) :=
  C8_channel_isolation [(7, 60), (8, 60)]
    (fun c => if c == 7 then Except.error () else Except.ok []) [] 0
    (fun i => ⟨i, false⟩) [] [] 7 60 rfl

/-- C9: every timer the sweep schedules has a strictly positive remaining
duration, so `new_dur.to_std().unwrap()` cannot panic: the conversion
succeeds and the spawned body exists. -/
theorem C9_to_std_never_panics (msgs : Registry)
    (history : List MessageSnapshot) (dur : Nat) (now : Int)
    (fresh : Nat → Handle) (s : Nat × Int)
    (hs : s ∈ (sweepChannel msgs history dur now fresh).scheduled) :
    0 < s.2 ∧ toStd s.2 = some s.2.toNat ∧
      (reconTimerBody s.2 s.1).isSome = true := by
  unfold sweepChannel at hs
  rw [foldl_sweep_scheduled] at hs
  simp only [List.nil_append] at hs
  rcases List.mem_map.mp hs with ⟨m, hm, he⟩
  have hpos : 0 < remainingDur dur now m := by
    have := (List.mem_filter.mp hm).2
    simpa using this
  have h2 : 0 < s.2 := by rw [← he]; exact hpos
  refine ⟨h2, ?_, ?_⟩
  · unfold toStd
    rw [if_neg (by omega)]
  · unfold reconTimerBody toStd
    rw [if_neg (by omega)]
    rfl

/-- Witness for C9: the timer scheduled for message 2 carries 50 time units
and converts successfully. -/
theorem C9_to_std_never_panics_witness :
    0 < ((2, 50) : Nat × Int).2 ∧
    toStd ((2, 50) : Nat × Int).2 = some ((2, 50) : Nat × Int).2.toNat ∧
    (reconTimerBody ((2, 50) : Nat × Int).2 ((2, 50) : Nat × Int).1).isSome = true :=
  C9_to_std_never_panics [] [⟨2, 7, 30, false⟩] 60 40 (fun i => ⟨i, false⟩)
    (2, 50) (by decide)

/-- C10: a channel sweep removes or replaces no existing registry entry —
every entry present at the start is present, with the same handle, at the
end — and every other entry of the final registry is a freshly spawned
handle for a message that was untracked in the sweep's key snapshot. -/
theorem C10_sweep_frame (msgs : Registry) (history : List MessageSnapshot)
    (dur : Nat) (now : Int) (fresh : Nat → Handle) (p : Nat × Handle) :
    (p ∈ msgs → p ∈ (sweepChannel msgs history dur now fresh).registry) ∧
    (p ∈ (sweepChannel msgs history dur now fresh).registry →
      p ∈ msgs ∨
        ((msgs.map Prod.fst).contains p.1 = false ∧ p.2 = fresh p.1)) := by
  constructor
  · exact fun hp => sweepChannel_preserves msgs history dur now fresh p hp
  · intro hp
    unfold sweepChannel at hp
    rcases foldl_sweep_new dur now fresh _ _ p hp with h1 | ⟨m, hm, he1, he2⟩
    · exact Or.inl h1
    · right
      have hpred := (List.mem_filter.mp hm).2
      simp only [Bool.and_eq_true, Bool.not_eq_true'] at hpred
      exact ⟨by rw [he1]; exact hpred.1, by rw [he1]; exact he2⟩

/-- Witness for C10: the pre-existing entry for message 1 survives a sweep
that schedules untracked message 2. -/
theorem C10_sweep_frame_witness :
    (1, ⟨0, false⟩) ∈ (sweepChannel [(1, ⟨0, false⟩)] [⟨2, 7, 30, false⟩] 60 40
      (fun i => ⟨i, false⟩)).registry :=
  (C10_sweep_frame [(1, ⟨0, false⟩)] [⟨2, 7, 30, false⟩] 60 40
    (fun i => ⟨i, false⟩) (1, ⟨0, false⟩)).1 (by decide)
